import Mathlib

/-!
Verification of the SDL controller-mapping tokenizer (`src/mapping/parser.rs`).

The embedding works at character granularity: the input line is a `List Char`
and all offsets are indices into that list (for ASCII input these coincide
with Rust's byte offsets; every delimiter and prefix character the grammar
inspects is ASCII).  The external GUID parser (`Uuid::parse_str`), declared
a black-box collaborator, is a parameter `guidOk : List Char → Bool`.
-/

set_option maxRecDepth 10000

namespace Gilrs

/-- The canonical button vocabulary (external enum `gamepad::Button`),
restricted to the variants the tables mention. -/
inductive Button where
  | South | East | Select | C | DPadDown | DPadLeft | DPadRight | DPadUp | Mode
  | LeftTrigger | LeftThumb | LeftTrigger2 | RightTrigger | RightThumb | RightTrigger2
  | Start | West | North | Z
deriving DecidableEq

/-- The canonical axis vocabulary (external enum `gamepad::Axis`). -/
inductive Axis where
  | LeftTrigger | LeftTrigger2 | LeftStickX | LeftStickY | LeftZ
  | RightTrigger | RightTrigger2 | RightStickX | RightStickY | RightZ
deriving DecidableEq

/-- `AxisRange` from the source. -/
inductive AxisRange where
  | LowerHalf | UpperHalf | Full
deriving DecidableEq

/-- `ErrorKind` from the source. -/
inductive ErrorKind where
  | InvalidGuid | InvalidKeyValPair | InvalidValue | UnknownAxis | UnknownButton
  | InvalidParserState | UnexpectedEnd
deriving DecidableEq

/-- `Error { position, kind }` from the source. -/
structure Error where
  kind : ErrorKind
  position : Nat
deriving DecidableEq

/-- `Error::new(kind, position)`. -/
def Error.new (kind : ErrorKind) (position : Nat) : Error := ⟨kind, position⟩

/-- `Token` from the source.  `uuid` keeps the raw accepted text in place of
the parsed `Uuid` value (the GUID parser is a black box). -/
inductive Token where
  | uuid (raw : List Char)
  | platform (v : List Char)
  | name (v : List Char)
  | axisMapping (source : Nat) (target : Axis) (input : AxisRange) (output : AxisRange)
      (inverted : Bool)
  | buttonMapping (source : Nat) (target : Button)
  | hatMapping (hat : Nat) (direction : Nat) (target : Button)
deriving DecidableEq

/-- Rust's `Result<Token, Error>`. -/
inductive PResult where
  | ok (t : Token)
  | error (e : Error)
deriving DecidableEq

/-- `State` from the source (`Invalid` is the spec's `Fatal`). -/
inductive State where
  | uuid | name | keyVal | invalid
deriving DecidableEq

/-- `Parser` from the source: borrowed line, cursor, stage. -/
structure Parser where
  data : List Char
  pos : Nat
  state : State
deriving DecidableEq

/-- `Parser::new`. -/
def Parser.new (mapping : List Char) : Parser := ⟨mapping, 0, State.uuid⟩

/-- `BUTTONS_SDL` (sorted name table). -/
def BUTTONS_SDL : List (List Char) :=
  ["a", "b", "back", "c", "dpdown", "dpleft", "dpright", "dpup", "guide", "leftshoulder",
   "leftstick", "lefttrigger", "rightshoulder", "rightstick", "righttrigger", "start", "x",
   "y", "z"].map String.toList

/-- `BUTTONS` (parallel value table). -/
def BUTTONS : List Button :=
  [Button.South, Button.East, Button.Select, Button.C, Button.DPadDown, Button.DPadLeft,
   Button.DPadRight, Button.DPadUp, Button.Mode, Button.LeftTrigger, Button.LeftThumb,
   Button.LeftTrigger2, Button.RightTrigger, Button.RightThumb, Button.RightTrigger2,
   Button.Start, Button.West, Button.North, Button.Z]

/-- `AXES_SDL` (sorted name table). -/
def AXES_SDL : List (List Char) :=
  ["leftshoulder", "lefttrigger", "leftx", "lefty", "leftz", "rightshoulder", "righttrigger",
   "rightx", "righty", "rightz"].map String.toList

/-- `AXES` (parallel value table). -/
def AXES : List Axis :=
  [Axis.LeftTrigger, Axis.LeftTrigger2, Axis.LeftStickX, Axis.LeftStickY, Axis.LeftZ,
   Axis.RightTrigger, Axis.RightTrigger2, Axis.RightStickX, Axis.RightStickY, Axis.RightZ]

/-- Lexicographic comparison of character sequences (Rust's `str::cmp`;
UTF-8 byte order coincides with scalar-value order). -/
def lcmp : List Char → List Char → Ordering
  | [], [] => Ordering.eq
  | [], _ :: _ => Ordering.lt
  | _ :: _, [] => Ordering.gt
  | a :: as, b :: bs =>
    if a = b then lcmp as bs
    else if a < b then Ordering.lt
    else Ordering.gt

/-- Core loop of `slice::binary_search_by`: repeatedly split the slice at its
midpoint.  `fuel` only bounds the iteration count (the slice at least halves
each round, so `length + 1` is always enough). -/
def bsearchGo (key : List Char) : Nat → Nat → List (List Char) → Option Nat
  | 0, _, _ => none
  | fuel + 1, base, s =>
    let half := s.length / 2
    match s.drop half with
    | [] => none
    | x :: rest =>
      match lcmp x key with
      | Ordering.lt => bsearchGo key fuel (base + half + 1) rest
      | Ordering.gt => bsearchGo key fuel base (s.take half)
      | Ordering.eq => some (base + half)

/-- `slice::binary_search(&key)` on a name table: `some index` on a hit. -/
def binary_search (t : List (List Char)) (key : List Char) : Option Nat :=
  bsearchGo key (t.length + 1) 0 t

/-- `BUTTONS_SDL.binary_search(&key)` followed by `BUTTONS[idx]`. -/
def buttonLookup (key : List Char) : Option Button :=
  match binary_search BUTTONS_SDL key with
  | some i => BUTTONS.get? i
  | none => none

/-- `AXES_SDL.binary_search(&key)` followed by `AXES[idx]`. -/
def axisLookup (key : List Char) : Option Axis :=
  match binary_search AXES_SDL key with
  | some i => AXES.get? i
  | none => none

/-- Decimal digit value. -/
def digitVal? (c : Char) : Option Nat :=
  if '0' ≤ c ∧ c ≤ '9' then some (c.toNat - 48) else none

/-- Accumulate decimal digits; `none` on any non-digit. -/
def parseDigits (s : List Char) : Option Nat :=
  s.foldl
    (fun acc c =>
      match acc, digitVal? c with
      | some n, some d => some (n * 10 + d)
      | _, _ => none)
    (some 0)

/-- Rust's `str::parse::<u16>()`: optional leading `+`, at least one digit,
value below `2^16`; a leading `-` is rejected for unsigned targets. -/
def parseU16 (s : List Char) : Option Nat :=
  let t := match s with
    | '+' :: r => r
    | _ => s
  if t = [] then none
  else
    match parseDigits t with
    | some n => if n < 65536 then some n else none
    | none => none

/-- Index of the first occurrence of `c` (Rust's `str::find`). -/
def findChar? (c : Char) : List Char → Option Nat
  | [] => none
  | x :: xs => if x = c then some 0 else (findChar? c xs).map (· + 1)

/-- The slice `l[a..b]`. -/
def extract (l : List Char) (a b : Nat) : List Char := (l.drop a).take (b - a)

/-- Rust's `str::split(':')`. -/
def splitOn (c : Char) : List Char → List (List Char)
  | [] => [[]]
  | x :: xs =>
    if x = c then [] :: splitOn c xs
    else
      match splitOn c xs with
      | [] => [[x]]
      | p :: ps => (x :: p) :: ps

/-- `Parser::next_comma_or_end`. -/
def next_comma_or_end (p : Parser) : Nat :=
  match findChar? ',' (p.data.drop p.pos) with
  | some x => x + p.pos
  | none => p.data.length

/-- The trailing-`~` check shared by the three axis arms of the value
grammar (`value.get((value.len() - 1)..) == Some("~")` on `value` with the
role prefix already stripped into `rest`): returns the numeric slice and the
inversion flag. -/
def stripTilde (rest : List Char) : List Char × Bool :=
  if rest.getLast? = some '~' then (rest.dropLast, true) else (rest, false)

/-- The reserved key `platform`. -/
def platformKey : List Char := "platform".toList

/-- Axis-table resolution (source lines 190-200): `AXES_SDL.binary_search`
on the sign-stripped key, then build the `AxisMapping` token. -/
def axisResolve (k : List Char) (source : Nat) (input output : AxisRange)
    (inverted : Bool) (pos : Nat) : PResult :=
  match axisLookup k with
  | none => PResult.error (Error.new ErrorKind.UnknownAxis pos)
  | some ax => PResult.ok (Token.axisMapping source ax input output inverted)

/-- Tail of the axis arms of `parse_key_val` (source lines 172-200): parse
the numeric slice as `u16`, strip an optional `+`/`-` output-range sign off
the key, and resolve the key against the axis table. -/
def finishAxis (key : List Char) (body : List Char) (inverted : Bool)
    (input : AxisRange) (pos : Nat) : PResult :=
  match parseU16 body with
  | none => PResult.error (Error.new ErrorKind.InvalidValue pos)
  | some source =>
    match key with
    | '+' :: k => axisResolve k source input AxisRange.UpperHalf inverted pos
    | '-' :: k => axisResolve k source input AxisRange.LowerHalf inverted pos
    | _ => axisResolve key source input AxisRange.Full inverted pos

/-- The `Some("h")` arm of `parse_key_val` (source lines 153-170): split the
value at the first `.`, parse hat index and direction, resolve the key
against the button table. -/
def decodeHat (key value : List Char) (pos : Nat) : PResult :=
  match findChar? '.' value with
  | none => PResult.error (Error.new ErrorKind.InvalidValue pos)
  | some dotIdx =>
    match parseU16 (extract value 1 dotIdx) with
    | none => PResult.error (Error.new ErrorKind.InvalidValue (pos + 1))
    | some hat =>
      match parseU16 (value.drop (dotIdx + 1)) with
      | none => PResult.error (Error.new ErrorKind.InvalidValue (pos + dotIdx + 1))
      | some direction =>
        match buttonLookup key with
        | none => PResult.error (Error.new ErrorKind.UnknownButton pos)
        | some b => PResult.ok (Token.hatMapping hat direction b)

/-- The value micro-grammar of `parse_key_val` (source lines 111-207),
dispatching on the first one or two characters of the value. -/
def decodeValue (key value : List Char) (pos : Nat) : PResult :=
  match value with
  | '+' :: 'a' :: rest =>
    let bi := stripTilde rest
    finishAxis key bi.1 bi.2 AxisRange.UpperHalf pos
  | '-' :: 'a' :: rest =>
    let bi := stripTilde rest
    finishAxis key bi.1 bi.2 AxisRange.LowerHalf pos
  | 'a' :: rest =>
    let bi := stripTilde rest
    finishAxis key bi.1 bi.2 AxisRange.Full pos
  | 'b' :: rest =>
    (match parseU16 rest with
     | none => PResult.error (Error.new ErrorKind.InvalidValue pos)
     | some source =>
       match buttonLookup key with
       | none => PResult.error (Error.new ErrorKind.UnknownButton pos)
       | some b => PResult.ok (Token.buttonMapping source b))
  | 'h' :: rest => decodeHat key ('h' :: rest) pos
  | _ => PResult.error (Error.new ErrorKind.InvalidValue pos)

/-- Decode one comma-delimited `key:value` field beginning at offset `pos`
(the body of `parse_key_val` after the cursor has advanced). -/
def decodePair (pair : List Char) (pos : Nat) : PResult :=
  match splitOn ':' pair with
  | [key, value] =>
    if key = platformKey then PResult.ok (Token.platform value)
    else decodeValue key value pos
  | _ => PResult.error (Error.new ErrorKind.InvalidKeyValPair pos)

/-- `Parser::parse_uuid`. -/
def parse_uuid (guidOk : List Char → Bool) (p : Parser) : PResult × Parser :=
  let nc := next_comma_or_end p
  let raw := extract p.data p.pos nc
  if guidOk raw then
    if nc = p.data.length then
      (PResult.error (Error.new ErrorKind.UnexpectedEnd p.pos), { p with state := State.invalid })
    else
      (PResult.ok (Token.uuid raw), { p with state := State.name, pos := nc + 1 })
  else
    (PResult.error (Error.new ErrorKind.InvalidGuid p.pos), { p with state := State.invalid })

/-- `Parser::parse_name`. -/
def parse_name (p : Parser) : PResult × Parser :=
  let nc := next_comma_or_end p
  (PResult.ok (Token.name (extract p.data p.pos nc)),
   { p with state := State.keyVal, pos := nc + 1 })

/-- `Parser::parse_key_val`: the cursor moves past the field before the
field is decoded, and the stage stays `KeyVal`. -/
def parse_key_val (p : Parser) : PResult × Parser :=
  let nc := next_comma_or_end p
  (decodePair (extract p.data p.pos nc) p.pos, { p with pos := nc + 1 })

/-- `Parser::next_token`. -/
def next_token (guidOk : List Char → Bool) (p : Parser) : Option PResult × Parser :=
  if p.data.length ≤ p.pos then (none, p)
  else
    match p.state with
    | State.uuid =>
      let r := parse_uuid guidOk p
      (some r.1, r.2)
    | State.name =>
      let r := parse_name p
      (some r.1, r.2)
    | State.keyVal =>
      let r := parse_key_val p
      (some r.1, r.2)
    | State.invalid =>
      (some (PResult.error (Error.new ErrorKind.InvalidParserState p.pos)), p)

/-- Iterate the tokenizer `n` steps, keeping only the parser. -/
def run (guidOk : List Char → Bool) (p : Parser) : Nat → Parser
  | 0 => p
  | n + 1 => run guidOk (next_token guidOk p).2 n

/-- A GUID validator accepting everything (stand-in instance of the
black-box collaborator, used for concrete test lines). -/
def guidAlways : List Char → Bool := fun _ => true

/-!
### Checked model

A second copy of the tokenizer in which every Rust slice-indexing operation
(`&s[a..b]`, `&s[a..]`, `TABLE[idx]`) is bounds-checked: `none` at the top
level models a panic.  Non-panicking Rust operations (`str::get`,
`str::find`, `str::parse`) stay total.  Agreement with the total model above
is the no-panic theorem.
-/

/-- Checked `&l[a..b]`: `none` models the out-of-range panic. -/
def sliceChk (l : List Char) (a b : Nat) : Option (List Char) :=
  if a ≤ b ∧ b ≤ l.length then some (extract l a b) else none

/-- Checked `&l[a..]`. -/
def sliceFromChk (l : List Char) (a : Nat) : Option (List Char) :=
  if a ≤ l.length then some (l.drop a) else none

/-- `str::get(a..b)` (non-panicking; at character granularity the only
failure is an out-of-range bound). -/
def strGet (l : List Char) (a b : Nat) : Option (List Char) :=
  if a ≤ b ∧ b ≤ l.length then some (extract l a b) else none

/-- `str::get(a..)` (non-panicking). -/
def strGetFrom (l : List Char) (a : Nat) : Option (List Char) :=
  if a ≤ l.length then some (l.drop a) else none

/-- Checked axis-table resolution: `AXES_SDL.binary_search(&k)` then the
indexing `AXES[idx]` (source lines 190-200). -/
def axisResolveChk (k : List Char) (source : Nat) (input output : AxisRange)
    (inverted : Bool) (pos : Nat) : Option PResult :=
  match binary_search AXES_SDL k with
  | none => some (PResult.error (Error.new ErrorKind.UnknownAxis pos))
  | some i =>
    match AXES.get? i with
    | none => none
    | some ax => some (PResult.ok (Token.axisMapping source ax input output inverted))

/-- Checked button-table resolution: `BUTTONS_SDL.binary_search(&key)` then
`BUTTONS[idx]` (source lines 202-206). -/
def buttonResolveChk (key : List Char) (source : Nat) (pos : Nat) : Option PResult :=
  match binary_search BUTTONS_SDL key with
  | none => some (PResult.error (Error.new ErrorKind.UnknownButton pos))
  | some i =>
    match BUTTONS.get? i with
    | none => none
    | some b => some (PResult.ok (Token.buttonMapping source b))

/-- Checked tail of the axis arms (source lines 172-200): parse the numeric
slice, strip the key sign via `key.get(0..1)` and the panic-site `&key[1..]`,
resolve against the axis table. -/
def finishAxisChk (key body : List Char) (inverted : Bool) (input : AxisRange)
    (pos : Nat) : Option PResult :=
  match parseU16 body with
  | none => some (PResult.error (Error.new ErrorKind.InvalidValue pos))
  | some source =>
    match strGet key 0 1 with
    | some k1 =>
      if k1 = ['+'] then
        match sliceFromChk key 1 with
        | none => none
        | some k => axisResolveChk k source input AxisRange.UpperHalf inverted pos
      else if k1 = ['-'] then
        match sliceFromChk key 1 with
        | none => none
        | some k => axisResolveChk k source input AxisRange.LowerHalf inverted pos
      else axisResolveChk key source input AxisRange.Full inverted pos
    | none => axisResolveChk key source input AxisRange.Full inverted pos

/-- Checked `Some("h")` arm (source lines 153-170): `&value[1..dot_idx]` is
a panic-site, `value.get((dot_idx + 1)..)` is not. -/
def decodeHatChk (key value : List Char) (pos : Nat) : Option PResult :=
  match findChar? '.' value with
  | none => some (PResult.error (Error.new ErrorKind.InvalidValue pos))
  | some dotIdx =>
    match sliceChk value 1 dotIdx with
    | none => none
    | some hatSlice =>
      match parseU16 hatSlice with
      | none => some (PResult.error (Error.new ErrorKind.InvalidValue (pos + 1)))
      | some hat =>
        match strGetFrom value (dotIdx + 1) with
        | none => some (PResult.error (Error.new ErrorKind.InvalidValue (pos + dotIdx + 1)))
        | some dirSlice =>
          match parseU16 dirSlice with
          | none => some (PResult.error (Error.new ErrorKind.InvalidValue (pos + dotIdx + 1)))
          | some direction =>
            match binary_search BUTTONS_SDL key with
            | none => some (PResult.error (Error.new ErrorKind.UnknownButton pos))
            | some i =>
              match BUTTONS.get? i with
              | none => none
              | some b => some (PResult.ok (Token.hatMapping hat direction b))

/-- Checked value micro-grammar (source lines 111-207): the dispatching
`value.get(0..1)` / `value.get(1..2)` / `value.get((value.len() - 1)..)`
probes are non-panicking `get`s, the slices `&value[1..]`, `&value[2..]`,
`&value[1..len - 1]`, `&value[2..len - 1]` are panic-sites. -/
def decodeValueChk (key value : List Char) (pos : Nat) : Option PResult :=
  match strGet value 0 1 with
  | some c0 =>
    if c0 = ['+'] ∧ strGet value 1 2 = some ['a'] then
      if strGetFrom value (value.length - 1) = some ['~'] then
        match sliceChk value 2 (value.length - 1) with
        | none => none
        | some body => finishAxisChk key body true AxisRange.UpperHalf pos
      else
        match sliceFromChk value 2 with
        | none => none
        | some body => finishAxisChk key body false AxisRange.UpperHalf pos
    else if c0 = ['-'] ∧ strGet value 1 2 = some ['a'] then
      if strGetFrom value (value.length - 1) = some ['~'] then
        match sliceChk value 2 (value.length - 1) with
        | none => none
        | some body => finishAxisChk key body true AxisRange.LowerHalf pos
      else
        match sliceFromChk value 2 with
        | none => none
        | some body => finishAxisChk key body false AxisRange.LowerHalf pos
    else if c0 = ['a'] then
      if strGetFrom value (value.length - 1) = some ['~'] then
        match sliceChk value 1 (value.length - 1) with
        | none => none
        | some body => finishAxisChk key body true AxisRange.Full pos
      else
        match sliceFromChk value 1 with
        | none => none
        | some body => finishAxisChk key body false AxisRange.Full pos
    else if c0 = ['b'] then
      match sliceFromChk value 1 with
      | none => none
      | some body =>
        match parseU16 body with
        | none => some (PResult.error (Error.new ErrorKind.InvalidValue pos))
        | some source => buttonResolveChk key source pos
    else if c0 = ['h'] then decodeHatChk key value pos
    else some (PResult.error (Error.new ErrorKind.InvalidValue pos))
  | none => some (PResult.error (Error.new ErrorKind.InvalidValue pos))

/-- Checked field decoder (split on `:` never panics). -/
def decodePairChk (pair : List Char) (pos : Nat) : Option PResult :=
  match splitOn ':' pair with
  | [key, value] =>
    if key = platformKey then some (PResult.ok (Token.platform value))
    else decodeValueChk key value pos
  | _ => some (PResult.error (Error.new ErrorKind.InvalidKeyValPair pos))

/-- Checked `parse_uuid`: `&self.data[self.pos..next_comma]` is a
panic-site. -/
def parse_uuidChk (guidOk : List Char → Bool) (p : Parser) : Option (PResult × Parser) :=
  let nc := next_comma_or_end p
  match sliceChk p.data p.pos nc with
  | none => none
  | some raw =>
    if guidOk raw then
      if nc = p.data.length then
        some (PResult.error (Error.new ErrorKind.UnexpectedEnd p.pos),
          { p with state := State.invalid })
      else
        some (PResult.ok (Token.uuid raw), { p with state := State.name, pos := nc + 1 })
    else
      some (PResult.error (Error.new ErrorKind.InvalidGuid p.pos),
        { p with state := State.invalid })

/-- Checked `parse_name`. -/
def parse_nameChk (p : Parser) : Option (PResult × Parser) :=
  let nc := next_comma_or_end p
  match sliceChk p.data p.pos nc with
  | none => none
  | some nm =>
    some (PResult.ok (Token.name nm), { p with state := State.keyVal, pos := nc + 1 })

/-- Checked `parse_key_val`. -/
def parse_key_valChk (p : Parser) : Option (PResult × Parser) :=
  let nc := next_comma_or_end p
  match sliceChk p.data p.pos nc with
  | none => none
  | some pair =>
    match decodePairChk pair p.pos with
    | none => none
    | some r => some (r, { p with pos := nc + 1 })

/-- Checked `next_token`: `none` models a panic anywhere inside the call. -/
def next_tokenChk (guidOk : List Char → Bool) (p : Parser) :
    Option (Option PResult × Parser) :=
  if p.data.length ≤ p.pos then some (none, p)
  else
    match p.state with
    | State.uuid => (parse_uuidChk guidOk p).map (fun r => (some r.1, r.2))
    | State.name => (parse_nameChk p).map (fun r => (some r.1, r.2))
    | State.keyVal => (parse_key_valChk p).map (fun r => (some r.1, r.2))
    | State.invalid =>
      some (some (PResult.error (Error.new ErrorKind.InvalidParserState p.pos)), p)

/-!
### Helper lemmas
-/

lemma lcmp_eq_iff (a b : List Char) : lcmp a b = Ordering.eq ↔ a = b := by
  induction a generalizing b with
  | nil => cases b <;> simp [lcmp]
  | cons x xs ih =>
    cases b with
    | nil => simp [lcmp]
    | cons y ys =>
      by_cases hxy : x = y
      · subst hxy; simp [lcmp, ih]
      · simp only [lcmp, if_neg hxy]
        split <;> simp [hxy]

lemma bsearchGo_mem (key : List Char) :
    ∀ fuel base s i, bsearchGo key fuel base s = some i →
      ∃ x ∈ s, lcmp x key = Ordering.eq := by
  intro fuel
  induction fuel with
  | zero => intro base s i h; simp [bsearchGo] at h
  | succ n ih =>
    intro base s i h
    rw [bsearchGo] at h
    split at h
    · exact absurd h (by simp)
    · rename_i x rest hd
      split at h
      · rename_i hc
        obtain ⟨y, hy, hye⟩ := ih _ _ _ h
        refine ⟨y, List.drop_subset (s.length / 2) s ?_, hye⟩
        rw [hd]; exact List.mem_cons_of_mem x hy
      · rename_i hc
        obtain ⟨y, hy, hye⟩ := ih _ _ _ h
        exact ⟨y, List.take_subset _ s hy, hye⟩
      · rename_i hc
        refine ⟨x, List.drop_subset (s.length / 2) s ?_, hc⟩
        rw [hd]; exact List.mem_cons_self x rest

lemma bsearchGo_lt_length (key : List Char) :
    ∀ fuel base s i, bsearchGo key fuel base s = some i → i < base + s.length := by
  intro fuel
  induction fuel with
  | zero => intro base s i h; simp [bsearchGo] at h
  | succ n ih =>
    intro base s i h
    rw [bsearchGo] at h
    split at h
    · exact absurd h (by simp)
    · rename_i x rest hd
      have hlen : (s.drop (s.length / 2)).length = s.length - s.length / 2 :=
        List.length_drop _ _
      rw [hd] at hlen
      simp only [List.length_cons] at hlen
      have hhalf : s.length / 2 < s.length := by omega
      split at h
      · have := ih _ _ _ h
        omega
      · have := ih _ _ _ h
        have htake : (s.take (s.length / 2)).length = s.length / 2 := by
          rw [List.length_take]; omega
        omega
      · simp only [Option.some.injEq] at h
        omega

lemma binary_search_mem (t : List (List Char)) (key : List Char) (i : Nat)
    (h : binary_search t key = some i) : key ∈ t := by
  obtain ⟨x, hx, hxe⟩ := bsearchGo_mem key _ _ _ _ h
  rw [lcmp_eq_iff] at hxe
  exact hxe ▸ hx

lemma binary_search_lt (t : List (List Char)) (key : List Char) (i : Nat)
    (h : binary_search t key = some i) : i < t.length := by
  have := bsearchGo_lt_length key _ _ _ _ h
  omega

lemma splitOn_not_mem (c : Char) (s : List Char) (h : c ∉ s) : splitOn c s = [s] := by
  induction s with
  | nil => rfl
  | cons x xs ih =>
    have hx : ¬x = c := by rintro rfl; exact h (List.mem_cons_self _ _)
    have hxs : c ∉ xs := fun hm => h (List.mem_cons_of_mem _ hm)
    simp only [splitOn, if_neg hx, ih hxs]

lemma splitOn_append (c : Char) (a b : List Char) (h : c ∉ a) :
    splitOn c (a ++ c :: b) = a :: splitOn c b := by
  induction a with
  | nil => simp [splitOn]
  | cons x xs ih =>
    have hx : ¬x = c := by rintro rfl; exact h (List.mem_cons_self _ _)
    have hxs : c ∉ xs := fun hm => h (List.mem_cons_of_mem _ hm)
    simp only [List.cons_append, List.append_eq, splitOn, if_neg hx, ih hxs]

lemma splitOn_length (c : Char) (s : List Char) :
    (splitOn c s).length = s.count c + 1 := by
  induction s with
  | nil => simp [splitOn]
  | cons x xs ih =>
    by_cases hx : x = c
    · subst hx
      simp [splitOn, ih, List.count_cons_self]
    · cases hs : splitOn c xs with
      | nil => rw [hs] at ih; simp at ih
      | cons p ps =>
        rw [hs] at ih
        simp only [splitOn, if_neg hx, hs, List.length_cons] at *
        rw [List.count_cons_of_ne (fun hcx => hx hcx.symm)]
        omega

lemma findChar?_eq_none (c : Char) (l : List Char) :
    findChar? c l = none ↔ c ∉ l := by
  induction l with
  | nil => simp [findChar?]
  | cons x xs ih =>
    by_cases hx : x = c
    · subst hx; simp [findChar?]
    · simp only [findChar?, if_neg hx, Option.map_eq_none', ih, List.mem_cons]
      constructor
      · rintro hn (rfl | hm)
        · exact hx rfl
        · exact hn hm
      · intro hn hm; exact hn (Or.inr hm)

lemma findChar?_append_self (c : Char) (a b : List Char) (h : c ∉ a) :
    findChar? c (a ++ c :: b) = some a.length := by
  induction a with
  | nil => simp [findChar?]
  | cons x xs ih =>
    have hx : ¬x = c := by rintro rfl; exact h (List.mem_cons_self _ _)
    have hxs : c ∉ xs := fun hm => h (List.mem_cons_of_mem _ hm)
    simp only [List.cons_append, List.append_eq, findChar?, if_neg hx, ih hxs,
      Option.map_some', List.length_cons]

lemma findChar?_lt_length (c : Char) (l : List Char) (i : Nat)
    (h : findChar? c l = some i) : i < l.length := by
  induction l generalizing i with
  | nil => simp [findChar?] at h
  | cons x xs ih =>
    by_cases hx : x = c
    · simp [findChar?, hx] at h
      simp [← h]
    · simp only [findChar?, if_neg hx, Option.map_eq_some'] at h
      obtain ⟨j, hj, rfl⟩ := h
      have := ih _ hj
      simp only [List.length_cons]
      omega

lemma next_comma_or_end_bounds (p : Parser) (hp : p.pos ≤ p.data.length) :
    p.pos ≤ next_comma_or_end p ∧ next_comma_or_end p ≤ p.data.length := by
  unfold next_comma_or_end
  cases hf : findChar? ',' (p.data.drop p.pos) with
  | none => exact ⟨hp, le_refl _⟩
  | some x =>
    have := findChar?_lt_length _ _ _ hf
    rw [List.length_drop] at this
    have hred : (match some x with
        | some y => y + p.pos
        | none => p.data.length) = x + p.pos := rfl
    rw [hred]
    omega

lemma drop_length_sub_one (l : List Char) (h : l ≠ []) :
    l.drop (l.length - 1) = l.getLast?.toList := by
  induction l with
  | nil => cases h rfl
  | cons a t ih =>
    cases t with
    | nil => simp
    | cons b t' =>
      simp only [List.length_cons, Nat.add_sub_cancel, List.drop_succ_cons,
        List.getLast?_cons_cons]
      have := ih (by simp)
      simpa using this

lemma next_token_invalid (guidOk : List Char → Bool) (p : Parser)
    (hst : p.state = State.invalid) (hlt : p.pos < p.data.length) :
    next_token guidOk p =
      (some (PResult.error (Error.new ErrorKind.InvalidParserState p.pos)), p) := by
  unfold next_token
  rw [if_neg (by omega), hst]

lemma next_token_keyval (guidOk : List Char → Bool) (p : Parser)
    (hst : p.state = State.keyVal) (hlt : p.pos < p.data.length) :
    next_token guidOk p =
      (some (decodePair (extract p.data p.pos (next_comma_or_end p)) p.pos),
       { p with pos := next_comma_or_end p + 1 }) := by
  obtain ⟨data, pos, st⟩ := p
  replace hst : st = State.keyVal := hst
  subst hst
  replace hlt : pos < data.length := hlt
  unfold next_token
  rw [if_neg (Nat.not_le.2 hlt)]
  rfl

lemma decodePair_not_one_colon (pair : List Char) (pos : Nat)
    (h : pair.count ':' ≠ 1) :
    decodePair pair pos = PResult.error (Error.new ErrorKind.InvalidKeyValPair pos) := by
  have hl := splitOn_length ':' pair
  unfold decodePair
  rcases hs : splitOn ':' pair with _ | ⟨k, _ | ⟨v, _ | ⟨w, rest⟩⟩⟩
  · rfl
  · rfl
  · exfalso; rw [hs] at hl; simp at hl; omega
  · rfl

/-!
### Claims
-/

/-- C1: once the tokenizer has entered the `Invalid` (spec: `Fatal`) state,
every `next_token` call on a not-yet-exhausted line returns an
`InvalidParserState` error at the current cursor and leaves the parser
completely unchanged — in particular the state stays `Invalid`. -/
theorem c1_fatal_state_is_terminal (guidOk : List Char → Bool) (p : Parser)
    (hst : p.state = State.invalid) (hlt : p.pos < p.data.length) :
    next_token guidOk p =
      (some (PResult.error (Error.new ErrorKind.InvalidParserState p.pos)), p) :=
  next_token_invalid guidOk p hst hlt

theorem c1_fatal_state_is_terminal_witness :
    next_token guidAlways ⟨['g'], 0, State.invalid⟩ =
      (some (PResult.error (Error.new ErrorKind.InvalidParserState 0)),
       ⟨['g'], 0, State.invalid⟩) :=
  c1_fatal_state_is_terminal guidAlways ⟨['g'], 0, State.invalid⟩ rfl (by decide)

/-- C3: in the `KeyVal` stage, a comma-delimited field whose colon count is
not exactly one yields `InvalidKeyValPair` at the field start, the stage
remains `KeyVal` and the cursor moves one past the delimiting comma, so
(second conjunct, on the line `k1v1,a:b5`) the very next call parses the
following field normally. -/
theorem c3_invalid_keyval_pair_is_field_local :
    (∀ (guidOk : List Char → Bool) (p : Parser), p.state = State.keyVal →
      p.pos < p.data.length →
      (extract p.data p.pos (next_comma_or_end p)).count ':' ≠ 1 →
      next_token guidOk p =
        (some (PResult.error (Error.new ErrorKind.InvalidKeyValPair p.pos)),
         ⟨p.data, next_comma_or_end p + 1, State.keyVal⟩)) ∧
    (next_token guidAlways
        (next_token guidAlways ⟨"k1v1,a:b5".toList, 0, State.keyVal⟩).2).1 =
      some (PResult.ok (Token.buttonMapping 5 Button.South)) := by
  constructor
  · intro guidOk p hst hlt hc
    rw [next_token_keyval guidOk p hst hlt, decodePair_not_one_colon _ _ hc, hst]
  · decide

theorem c3_invalid_keyval_pair_is_field_local_witness :
    next_token guidAlways ⟨"novalue".toList, 0, State.keyVal⟩ =
      (some (PResult.error (Error.new ErrorKind.InvalidKeyValPair 0)),
       ⟨"novalue".toList, 8, State.keyVal⟩) :=
  c3_invalid_keyval_pair_is_field_local.1 guidAlways
    ⟨"novalue".toList, 0, State.keyVal⟩ rfl (by decide) (by decide)

/-- C4: in the `KeyVal` stage, the field `+leftx:-a3~` produces an
`AxisMapping` with source 3, target `LeftStickX`, input range `LowerHalf`
(from the `-a` prefix), output range `UpperHalf` (from the key's `+`), and
inverted (from the trailing `~`). -/
theorem c4_plus_leftx_minus_a3_tilde :
    next_token guidAlways ⟨"+leftx:-a3~".toList, 0, State.keyVal⟩ =
      (some (PResult.ok (Token.axisMapping 3 Axis.LeftStickX AxisRange.LowerHalf
        AxisRange.UpperHalf true)),
       ⟨"+leftx:-a3~".toList, 12, State.keyVal⟩) := by decide

/-- C10: on an empty input line the very first `next_token` call reports end
of input (`none`) rather than any error, and leaves the parser unchanged. -/
theorem c10_empty_line_yields_no_token (guidOk : List Char → Bool) (p : Parser)
    (h : p.data = []) : next_token guidOk p = (none, p) := by
  unfold next_token
  rw [if_pos (by rw [h]; simp)]

theorem c10_empty_line_yields_no_token_witness :
    next_token guidAlways (Parser.new []) = (none, Parser.new []) :=
  c10_empty_line_yields_no_token guidAlways (Parser.new []) rfl

lemma next_token_uuid (guidOk : List Char → Bool) (p : Parser)
    (hst : p.state = State.uuid) (hlt : p.pos < p.data.length) :
    next_token guidOk p = (some (parse_uuid guidOk p).1, (parse_uuid guidOk p).2) := by
  obtain ⟨data, pos, st⟩ := p
  replace hst : st = State.uuid := hst
  subst hst
  replace hlt : pos < data.length := hlt
  unfold next_token
  rw [if_neg (Nat.not_le.2 hlt)]

lemma parse_uuid_no_comma (guidOk : List Char → Bool) (data : List Char)
    (hnc : ',' ∉ data) (hok : guidOk data = true) :
    parse_uuid guidOk ⟨data, 0, State.uuid⟩ =
      (PResult.error (Error.new ErrorKind.UnexpectedEnd 0), ⟨data, 0, State.invalid⟩) := by
  have hnc0 : next_comma_or_end ⟨data, 0, State.uuid⟩ = data.length := by
    unfold next_comma_or_end
    simp [(findChar?_eq_none ',' data).2 hnc]
  simp [parse_uuid, hnc0, extract, hok]

lemma run_invalid_fix (guidOk : List Char → Bool) (data : List Char)
    (hlen : 0 < data.length) :
    ∀ n, run guidOk ⟨data, 0, State.invalid⟩ n = ⟨data, 0, State.invalid⟩ := by
  intro n
  induction n with
  | zero => rfl
  | succ m ih =>
    have hstep := next_token_invalid guidOk (⟨data, 0, State.invalid⟩ : Parser) rfl hlen
    rw [run, hstep]
    exact ih

/-- C7: a non-empty line with no comma whose whole text is accepted by the
GUID parser makes the first `next_token` call return `UnexpectedEnd` and
latch the `Invalid` state; every later call, after any number of further
steps, returns `InvalidParserState`. -/
theorem c7_guid_only_line (guidOk : List Char → Bool) (data : List Char)
    (hne : data ≠ []) (hnc : ',' ∉ data) (hok : guidOk data = true) :
    next_token guidOk (Parser.new data) =
      (some (PResult.error (Error.new ErrorKind.UnexpectedEnd 0)),
       ⟨data, 0, State.invalid⟩) ∧
    ∀ n, (next_token guidOk (run guidOk ⟨data, 0, State.invalid⟩ n)).1 =
      some (PResult.error (Error.new ErrorKind.InvalidParserState 0)) := by
  have hlen : 0 < data.length := List.length_pos.2 hne
  constructor
  · rw [next_token_uuid guidOk (Parser.new data) rfl hlen,
      show Parser.new data = ⟨data, 0, State.uuid⟩ from rfl,
      parse_uuid_no_comma guidOk data hnc hok]
  · intro n
    rw [run_invalid_fix guidOk data hlen n,
      next_token_invalid guidOk (⟨data, 0, State.invalid⟩ : Parser) rfl hlen]

theorem c7_guid_only_line_witness :
    next_token guidAlways (Parser.new ['0']) =
      (some (PResult.error (Error.new ErrorKind.UnexpectedEnd 0)),
       ⟨['0'], 0, State.invalid⟩) ∧
    (next_token guidAlways (run guidAlways ⟨['0'], 0, State.invalid⟩ 3)).1 =
      some (PResult.error (Error.new ErrorKind.InvalidParserState 0)) := by
  have h := c7_guid_only_line guidAlways ['0'] (by decide) (by decide) rfl
  exact ⟨h.1, h.2 3⟩

/-- C8: in the `KeyVal` stage, when the key is the literal `platform` the
token is `Platform(value)` with the raw value passed through: no symbol
table lookup and no value decoding happens, so no `UnknownButton`,
`UnknownAxis` or `InvalidValue` error can arise (second conjunct: the value
`q1`, which would otherwise be an invalid value shape, is accepted). -/
theorem c8_platform_bypasses_decoding :
    (∀ (value : List Char) (pos : Nat), ':' ∉ value →
      decodePair (platformKey ++ ':' :: value) pos = PResult.ok (Token.platform value)) ∧
    (next_token guidAlways ⟨"platform:q1".toList, 0, State.keyVal⟩).1 =
      some (PResult.ok (Token.platform "q1".toList)) := by
  constructor
  · intro value pos hv
    unfold decodePair
    rw [splitOn_append ':' platformKey value (by decide), splitOn_not_mem ':' value hv]
    show (if platformKey = platformKey then PResult.ok (Token.platform value)
      else decodeValue platformKey value pos) = PResult.ok (Token.platform value)
    rw [if_pos rfl]
  · decide

theorem c8_platform_bypasses_decoding_witness :
    decodePair (platformKey ++ ':' :: "foo".toList) 7 =
      PResult.ok (Token.platform "foo".toList) :=
  c8_platform_bypasses_decoding.1 "foo".toList 7 (by decide)

/-- C6: both symbol tables are sorted strictly ascending in lexicographic
order and are index-aligned with their value tables; binary search resolves
every listed name to the value at the same index, and every string not in a
table fails to resolve (surfacing as `UnknownButton` / `UnknownAxis` in the
decoder, shown on the field `foobar:b1` resp. `foobar:a1`). -/
theorem c6_symbol_tables :
    List.Pairwise (fun a b => lcmp a b = Ordering.lt) BUTTONS_SDL ∧
    List.Pairwise (fun a b => lcmp a b = Ordering.lt) AXES_SDL ∧
    BUTTONS_SDL.length = BUTTONS.length ∧
    AXES_SDL.length = AXES.length ∧
    (∀ i : Fin BUTTONS_SDL.length, buttonLookup (BUTTONS_SDL.get i) = BUTTONS.get? i.val) ∧
    (∀ i : Fin AXES_SDL.length, axisLookup (AXES_SDL.get i) = AXES.get? i.val) ∧
    (∀ key, key ∉ BUTTONS_SDL → buttonLookup key = none) ∧
    (∀ key, key ∉ AXES_SDL → axisLookup key = none) ∧
    (next_token guidAlways ⟨"foobar:b1".toList, 0, State.keyVal⟩).1 =
      some (PResult.error (Error.new ErrorKind.UnknownButton 0)) ∧
    (next_token guidAlways ⟨"foobar:a1".toList, 0, State.keyVal⟩).1 =
      some (PResult.error (Error.new ErrorKind.UnknownAxis 0)) := by
  refine ⟨by decide, by decide, by decide, by decide, by decide, by decide, ?_, ?_,
    by decide, by decide⟩
  · intro key hk
    unfold buttonLookup
    cases hb : binary_search BUTTONS_SDL key with
    | none => rfl
    | some i => exact absurd (binary_search_mem _ _ _ hb) hk
  · intro key hk
    unfold axisLookup
    cases hb : binary_search AXES_SDL key with
    | none => rfl
    | some i => exact absurd (binary_search_mem _ _ _ hb) hk

theorem c6_symbol_tables_witness :
    buttonLookup "foobar".toList = none ∧ axisLookup "foobar".toList = none :=
  ⟨c6_symbol_tables.2.2.2.2.2.2.1 "foobar".toList (by decide),
   c6_symbol_tables.2.2.2.2.2.2.2.1 "foobar".toList (by decide)⟩

/-- C5: a `KeyVal` field whose value has the shape `h<idx>.<dir>` produces a
`HatMapping` whose hat index and direction are the integers around the first
dot and whose target is the key resolved against the button table; a value
`h…` with no dot yields `InvalidValue`, as does an unparseable integer on
either side of the dot (shown on `a:hx.2` and `a:h0.x`); `a:h0.2` gives hat
0, direction 2, target `South`. -/
theorem c5_hat_value_decoding :
    (∀ (key pre post : List Char) (h d : Nat) (pos : Nat) (b : Button),
      ':' ∉ key → ':' ∉ pre → ':' ∉ post → '.' ∉ pre →
      parseU16 pre = some h → parseU16 post = some d → buttonLookup key = some b →
      decodePair (key ++ ':' :: 'h' :: (pre ++ '.' :: post)) pos =
        PResult.ok (Token.hatMapping h d b)) ∧
    (∀ (key rest : List Char) (pos : Nat), ':' ∉ key → ':' ∉ rest → '.' ∉ rest →
      key ≠ platformKey →
      decodePair (key ++ ':' :: 'h' :: rest) pos =
        PResult.error (Error.new ErrorKind.InvalidValue pos)) ∧
    (next_token guidAlways ⟨"a:h0.2".toList, 0, State.keyVal⟩).1 =
      some (PResult.ok (Token.hatMapping 0 2 Button.South)) ∧
    (next_token guidAlways ⟨"a:hx.2".toList, 0, State.keyVal⟩).1 =
      some (PResult.error (Error.new ErrorKind.InvalidValue 1)) ∧
    (next_token guidAlways ⟨"a:h0.x".toList, 0, State.keyVal⟩).1 =
      some (PResult.error (Error.new ErrorKind.InvalidValue 3)) := by
  refine ⟨?_, ?_, by decide, by decide, by decide⟩
  · intro key pre post h d pos b hk hp1 hp2 hdot hh hd2 hbl
    have hneq : key ≠ platformKey := by
      rintro rfl
      rw [show buttonLookup platformKey = none from by decide] at hbl
      exact Option.noConfusion hbl
    have hvmem : ':' ∉ 'h' :: (pre ++ '.' :: post) := by
      simp only [List.mem_cons, List.mem_append, not_or]
      exact ⟨by decide, hp1, by decide, hp2⟩
    unfold decodePair
    rw [splitOn_append ':' key _ hk, splitOn_not_mem ':' _ hvmem]
    show (if key = platformKey then PResult.ok (Token.platform ('h' :: (pre ++ '.' :: post)))
      else decodeValue key ('h' :: (pre ++ '.' :: post)) pos) =
      PResult.ok (Token.hatMapping h d b)
    rw [if_neg hneq]
    rw [show decodeValue key ('h' :: (pre ++ '.' :: post)) pos =
      decodeHat key ('h' :: (pre ++ '.' :: post)) pos from rfl]
    unfold decodeHat
    have hfind : findChar? '.' ('h' :: (pre ++ '.' :: post)) = some (pre.length + 1) := by
      simp only [findChar?, if_neg (show ¬('h' = '.') from by decide)]
      rw [findChar?_append_self '.' pre post hdot]
      rfl
    have hex : extract ('h' :: (pre ++ '.' :: post)) 1 (pre.length + 1) = pre := by
      show (pre ++ '.' :: post).take pre.length = pre
      exact List.take_left pre ('.' :: post)
    have hdrop : ('h' :: (pre ++ '.' :: post)).drop (pre.length + 1 + 1) = post := by
      show (pre ++ '.' :: post).drop (pre.length + 1) = post
      rw [List.append_cons pre '.' post]
      have hL : pre.length + 1 = (pre ++ ['.']).length := by simp
      rw [hL, List.drop_left]
    simp only [hfind]
    simp only [hex, hh]
    simp only [hdrop, hd2, hbl]
  · intro key rest pos hk hr hdotr hneq
    have hvmem : ':' ∉ 'h' :: rest := by
      simp only [List.mem_cons, not_or]
      exact ⟨by decide, hr⟩
    unfold decodePair
    rw [splitOn_append ':' key _ hk, splitOn_not_mem ':' _ hvmem]
    show (if key = platformKey then PResult.ok (Token.platform ('h' :: rest))
      else decodeValue key ('h' :: rest) pos) =
      PResult.error (Error.new ErrorKind.InvalidValue pos)
    rw [if_neg hneq]
    rw [show decodeValue key ('h' :: rest) pos = decodeHat key ('h' :: rest) pos from rfl]
    unfold decodeHat
    have hfind : findChar? '.' ('h' :: rest) = none := by
      rw [findChar?_eq_none]
      simp only [List.mem_cons, not_or]
      exact ⟨by decide, hdotr⟩
    simp only [hfind]

theorem c5_hat_value_decoding_witness :
    decodePair ("a".toList ++ ':' :: 'h' :: ("0".toList ++ '.' :: "2".toList)) 0 =
      PResult.ok (Token.hatMapping 0 2 Button.South) :=
  c5_hat_value_decoding.1 "a".toList "0".toList "2".toList 0 2 0 Button.South
    (by decide) (by decide) (by decide) (by decide) (by decide) (by decide) (by decide)

lemma axisResolve_error_pos (k : List Char) (source : Nat) (input output : AxisRange)
    (inv : Bool) (pos : Nat) (e : Error)
    (h : axisResolve k source input output inv pos = PResult.error e) :
    e.position = pos := by
  unfold axisResolve at h
  split at h
  · injection h with h1; subst h1; rfl
  · exact PResult.noConfusion h

lemma finishAxis_error_pos (key body : List Char) (inv : Bool) (input : AxisRange)
    (pos : Nat) (e : Error) (h : finishAxis key body inv input pos = PResult.error e) :
    e.position = pos := by
  unfold finishAxis at h
  split at h
  · injection h with h1; subst h1; rfl
  · split at h
    · exact axisResolve_error_pos _ _ _ _ _ _ _ h
    · exact axisResolve_error_pos _ _ _ _ _ _ _ h
    · exact axisResolve_error_pos _ _ _ _ _ _ _ h

lemma decodeHat_error_pos (key value : List Char) (pos : Nat) (e : Error)
    (h : decodeHat key value pos = PResult.error e) :
    (e.kind ≠ ErrorKind.InvalidValue → e.position = pos) ∧ pos ≤ e.position := by
  unfold decodeHat at h
  split at h
  · injection h with h1; subst h1; exact ⟨fun _ => rfl, Nat.le_refl _⟩
  · split at h
    · injection h with h1; subst h1
      exact ⟨fun hk => absurd rfl hk, Nat.le_succ pos⟩
    · split at h
      · injection h with h1; subst h1
        refine ⟨fun hk => absurd rfl hk, ?_⟩
        show pos ≤ pos + _ + 1
        omega
      · split at h
        · injection h with h1; subst h1; exact ⟨fun _ => rfl, Nat.le_refl _⟩
        · exact PResult.noConfusion h

lemma decodeValue_error_pos (key value : List Char) (pos : Nat) (e : Error)
    (h : decodeValue key value pos = PResult.error e) :
    (e.kind ≠ ErrorKind.InvalidValue → e.position = pos) ∧ pos ≤ e.position := by
  unfold decodeValue at h
  split at h
  · have := finishAxis_error_pos _ _ _ _ _ _ h
    exact ⟨fun _ => this, le_of_eq this.symm⟩
  · have := finishAxis_error_pos _ _ _ _ _ _ h
    exact ⟨fun _ => this, le_of_eq this.symm⟩
  · have := finishAxis_error_pos _ _ _ _ _ _ h
    exact ⟨fun _ => this, le_of_eq this.symm⟩
  · split at h
    · injection h with h1; subst h1; exact ⟨fun _ => rfl, Nat.le_refl _⟩
    · split at h
      · injection h with h1; subst h1; exact ⟨fun _ => rfl, Nat.le_refl _⟩
      · exact PResult.noConfusion h
  · exact decodeHat_error_pos _ _ _ _ h
  · injection h with h1; subst h1; exact ⟨fun _ => rfl, Nat.le_refl _⟩

lemma decodePair_error_pos (pair : List Char) (pos : Nat) (e : Error)
    (h : decodePair pair pos = PResult.error e) :
    (e.kind ≠ ErrorKind.InvalidValue → e.position = pos) ∧ pos ≤ e.position := by
  unfold decodePair at h
  split at h
  · split at h
    · exact PResult.noConfusion h
    · exact decodeValue_error_pos _ _ _ _ h
  · injection h with h1; subst h1; exact ⟨fun _ => rfl, Nat.le_refl _⟩

lemma parse_uuid_error_pos (guidOk : List Char → Bool) (p : Parser) (e : Error)
    (h : (parse_uuid guidOk p).1 = PResult.error e) : e.position = p.pos := by
  simp only [parse_uuid] at h
  split at h
  · split at h
    · replace h : PResult.error (Error.new ErrorKind.UnexpectedEnd p.pos) =
        PResult.error e := h
      injection h with h1; subst h1; rfl
    · replace h : PResult.ok (Token.uuid
        (extract p.data p.pos (next_comma_or_end p))) = PResult.error e := h
      exact PResult.noConfusion h
  · replace h : PResult.error (Error.new ErrorKind.InvalidGuid p.pos) =
      PResult.error e := h
    injection h with h1; subst h1; rfl

/-- C2 (amended): every error returned by `next_token` carries a byte offset
at or after the start of the offending field, and every kind other than
`InvalidValue` carries exactly the field's starting offset; `InvalidValue`
errors from the hat sub-grammar instead point at the offending integer
sub-field (field start + 1 for the hat index, field start + dot offset + 1
for the direction). -/
theorem c2_error_offset_field_start (guidOk : List Char → Bool) (p : Parser) (e : Error)
    (h : (next_token guidOk p).1 = some (PResult.error e)) :
    (e.kind ≠ ErrorKind.InvalidValue → e.position = p.pos) ∧ p.pos ≤ e.position := by
  unfold next_token at h
  split at h
  · exact Option.noConfusion h
  · split at h
    · replace h : some (parse_uuid guidOk p).1 = some (PResult.error e) := h
      injection h with h
      have := parse_uuid_error_pos guidOk p e h
      exact ⟨fun _ => this, le_of_eq this.symm⟩
    · replace h : some (parse_name p).1 = some (PResult.error e) := h
      injection h with h
      replace h : PResult.ok (Token.name
        (extract p.data p.pos (next_comma_or_end p))) = PResult.error e := h
      exact PResult.noConfusion h
    · replace h : some (parse_key_val p).1 = some (PResult.error e) := h
      injection h with h
      replace h : decodePair (extract p.data p.pos (next_comma_or_end p)) p.pos =
        PResult.error e := h
      exact decodePair_error_pos _ _ _ h
    · replace h : some (PResult.error (Error.new ErrorKind.InvalidParserState p.pos)) =
        some (PResult.error e) := h
      injection h with h
      injection h with h1
      subst h1
      exact ⟨fun _ => rfl, Nat.le_refl _⟩

theorem c2_error_offset_field_start_witness :
    ((next_token guidAlways ⟨"x".toList, 0, State.keyVal⟩).1 =
      some (PResult.error (Error.new ErrorKind.InvalidKeyValPair 0))) ∧
    (Error.new ErrorKind.InvalidKeyValPair 0).kind ≠ ErrorKind.InvalidValue ∧
    (Error.new ErrorKind.InvalidKeyValPair 0).position = 0 :=
  ⟨by decide, by decide,
   (c2_error_offset_field_start guidAlways ⟨"x".toList, 0, State.keyVal⟩
     (Error.new ErrorKind.InvalidKeyValPair 0) (by decide)).1 (by decide)⟩

/-- C2 (counterexample to the claim as stated): on the single-field line
`a:hx.2` in the `KeyVal` stage the offending field begins at offset 0 (the
cursor position), but the returned `InvalidValue` error carries offset 1 —
so not every diagnostic carries the byte offset where the offending field
began. -/
theorem c2_error_offset_counterexample :
    (Parser.mk "a:hx.2".toList 0 State.keyVal).pos = 0 ∧
    (next_token guidAlways (Parser.mk "a:hx.2".toList 0 State.keyVal)).1 =
      some (PResult.error (Error.new ErrorKind.InvalidValue 1)) ∧
    (1 : Nat) ≠ 0 := by decide

/-!
### Agreement of the checked model with the total model
-/

lemma sliceChk_of_le (l : List Char) (a b : Nat) (h1 : a ≤ b) (h2 : b ≤ l.length) :
    sliceChk l a b = some (extract l a b) := by
  unfold sliceChk
  rw [if_pos ⟨h1, h2⟩]

lemma sliceFromChk_of_le (l : List Char) (a : Nat) (h : a ≤ l.length) :
    sliceFromChk l a = some (l.drop a) := by
  unfold sliceFromChk
  rw [if_pos h]

lemma strGet_head (c : Char) (cs : List Char) : strGet (c :: cs) 0 1 = some [c] := by
  unfold strGet
  rw [if_pos ⟨Nat.zero_le 1, by simp⟩]
  rfl

lemma strGet_second (c c2 : Char) (cs : List Char) :
    strGet (c :: c2 :: cs) 1 2 = some [c2] := by
  unfold strGet
  rw [if_pos ⟨by omega, by simp⟩]
  rfl

lemma strGet_second_nil (c : Char) : strGet [c] 1 2 = none := by
  unfold strGet
  rw [if_neg (by simp)]

lemma strGetFrom_of_le (l : List Char) (a : Nat) (h : a ≤ l.length) :
    strGetFrom l a = some (l.drop a) := by
  unfold strGetFrom
  rw [if_pos h]

lemma tilde_cond (l : List Char) (h : l ≠ []) :
    (strGetFrom l (l.length - 1) = some ['~']) ↔ l.getLast? = some '~' := by
  unfold strGetFrom
  rw [if_pos (by omega)]
  rw [drop_length_sub_one l h]
  cases hl : l.getLast? with
  | none => simp
  | some x => simp [Option.toList]

lemma getLast?_head_cons (b : Char) (l : List Char) (hb : ¬b = '~') :
    ((b :: l).getLast? = some '~') ↔ (l.getLast? = some '~') := by
  cases l with
  | nil => simp [hb]
  | cons x xs => rw [List.getLast?_cons_cons]

lemma axisResolveChk_eq (k : List Char) (source : Nat) (input output : AxisRange)
    (inv : Bool) (pos : Nat) :
    axisResolveChk k source input output inv pos =
      some (axisResolve k source input output inv pos) := by
  simp only [axisResolveChk, axisResolve, axisLookup]
  cases hb : binary_search AXES_SDL k with
  | none => rfl
  | some i =>
    have hi : i < AXES.length := by
      have h1 := binary_search_lt _ _ _ hb
      have h2 : AXES_SDL.length = AXES.length := by decide
      omega
    simp only [List.get?_eq_get hi]

lemma buttonResolveChk_eq (key : List Char) (source pos : Nat) :
    buttonResolveChk key source pos =
      some (match buttonLookup key with
        | none => PResult.error (Error.new ErrorKind.UnknownButton pos)
        | some b => PResult.ok (Token.buttonMapping source b)) := by
  simp only [buttonResolveChk, buttonLookup]
  cases hb : binary_search BUTTONS_SDL key with
  | none => rfl
  | some i =>
    have hi : i < BUTTONS.length := by
      have h1 := binary_search_lt _ _ _ hb
      have h2 : BUTTONS_SDL.length = BUTTONS.length := by decide
      omega
    simp only [List.get?_eq_get hi]

lemma finishAxisChk_eq (key body : List Char) (inv : Bool) (input : AxisRange)
    (pos : Nat) :
    finishAxisChk key body inv input pos = some (finishAxis key body inv input pos) := by
  simp only [finishAxisChk, finishAxis]
  cases parseU16 body with
  | none => rfl
  | some source =>
    cases key with
    | nil => exact axisResolveChk_eq [] source input AxisRange.Full inv pos
    | cons k0 ks =>
      simp only [strGet_head]
      by_cases hp : k0 = '+'
      · subst hp
        rw [if_pos rfl]
        rw [sliceFromChk_of_le _ _ (by simp)]
        exact axisResolveChk_eq ks source input AxisRange.UpperHalf inv pos
      · by_cases hm : k0 = '-'
        · subst hm
          rw [if_neg (by simp), if_pos rfl]
          rw [sliceFromChk_of_le _ _ (by simp)]
          exact axisResolveChk_eq ks source input AxisRange.LowerHalf inv pos
        · rw [if_neg (by simp [hp]), if_neg (by simp [hm])]
          split
          · rename_i k heq
            exact absurd (List.cons.injEq .. ▸ heq :
              k0 = '+' ∧ ks = k).1 hp
          · rename_i k heq
            exact absurd (List.cons.injEq .. ▸ heq :
              k0 = '-' ∧ ks = k).1 hm
          · exact axisResolveChk_eq (k0 :: ks) source input AxisRange.Full inv pos

lemma decodeHatChk_eq (key rest : List Char) (pos : Nat) :
    decodeHatChk key ('h' :: rest) pos = some (decodeHat key ('h' :: rest) pos) := by
  simp only [decodeHatChk, decodeHat, buttonLookup]
  cases hf : findChar? '.' ('h' :: rest) with
  | none => rfl
  | some dotIdx =>
    have hdlt : dotIdx < ('h' :: rest).length := findChar?_lt_length _ _ _ hf
    have hd1 : 1 ≤ dotIdx := by
      simp only [findChar?, if_neg (show ¬('h' = '.') from by decide),
        Option.map_eq_some'] at hf
      obtain ⟨j, _, hjd⟩ := hf
      omega
    simp only [sliceChk_of_le ('h' :: rest) 1 dotIdx hd1 (by omega)]
    cases parseU16 (extract ('h' :: rest) 1 dotIdx) with
    | none => rfl
    | some hat =>
      simp only [strGetFrom_of_le ('h' :: rest) (dotIdx + 1) (by omega)]
      cases parseU16 (('h' :: rest).drop (dotIdx + 1)) with
      | none => rfl
      | some direction =>
        cases hb : binary_search BUTTONS_SDL key with
        | none => rfl
        | some i =>
          have hi : i < BUTTONS.length := by
            have h1 := binary_search_lt _ _ _ hb
            have h2 : BUTTONS_SDL.length = BUTTONS.length := by decide
            omega
          simp only [List.get?_eq_get hi]

lemma sliceChk_two_pred (v0 v1 : Char) (rest : List Char) (h : rest ≠ []) :
    sliceChk (v0 :: v1 :: rest) 2 ((v0 :: v1 :: rest).length - 1) =
      some rest.dropLast := by
  have hlen : (v0 :: v1 :: rest).length = rest.length + 2 := by simp
  have h1 : 1 ≤ rest.length := List.length_pos.2 h
  unfold sliceChk
  rw [if_pos ⟨by omega, by omega⟩]
  congr 1
  show rest.take ((v0 :: v1 :: rest).length - 1 - 2) = rest.dropLast
  rw [hlen, show rest.length + 2 - 1 - 2 = rest.length - 1 from by omega,
    ← List.dropLast_eq_take]

lemma sliceChk_one_pred (v0 : Char) (cs : List Char) (h : cs ≠ []) :
    sliceChk (v0 :: cs) 1 ((v0 :: cs).length - 1) = some cs.dropLast := by
  have hlen : (v0 :: cs).length = cs.length + 1 := by simp
  have h1 : 1 ≤ cs.length := List.length_pos.2 h
  unfold sliceChk
  rw [if_pos ⟨by omega, by omega⟩]
  congr 1
  show cs.take ((v0 :: cs).length - 1 - 1) = cs.dropLast
  rw [hlen, show cs.length + 1 - 1 - 1 = cs.length - 1 from by omega,
    ← List.dropLast_eq_take]

lemma sliceFromChk_cons_one (c : Char) (l : List Char) :
    sliceFromChk (c :: l) 1 = some l := by
  unfold sliceFromChk
  rw [if_pos (by simp)]
  rfl

lemma sliceFromChk_cons_cons_two (c d : Char) (l : List Char) :
    sliceFromChk (c :: d :: l) 2 = some l := by
  unfold sliceFromChk
  rw [if_pos (by simp)]
  rfl

lemma decodeValue_cons_other (key : List Char) (c : Char) (cs : List Char) (pos : Nat)
    (h1 : c ≠ '+') (h2 : c ≠ '-') (h3 : c ≠ 'a') (h4 : c ≠ 'b') (h5 : c ≠ 'h') :
    decodeValue key (c :: cs) pos =
      PResult.error (Error.new ErrorKind.InvalidValue pos) := by
  unfold decodeValue
  split <;> simp_all

lemma decodeValue_plus_other (key : List Char) (c2 : Char) (cs : List Char) (pos : Nat)
    (h : c2 ≠ 'a') :
    decodeValue key ('+' :: c2 :: cs) pos =
      PResult.error (Error.new ErrorKind.InvalidValue pos) := by
  unfold decodeValue
  split <;> simp_all

lemma decodeValue_minus_other (key : List Char) (c2 : Char) (cs : List Char) (pos : Nat)
    (h : c2 ≠ 'a') :
    decodeValue key ('-' :: c2 :: cs) pos =
      PResult.error (Error.new ErrorKind.InvalidValue pos) := by
  unfold decodeValue
  split <;> simp_all

lemma decodeValueChk_eq (key value : List Char) (pos : Nat) :
    decodeValueChk key value pos = some (decodeValue key value pos) := by
  cases value with
  | nil => rfl
  | cons c cs =>
    simp only [decodeValueChk, strGet_head]
    cases cs with
    | nil =>
      by_cases hpc : c = '+'
      · subst hpc; rfl
      · by_cases hmc : c = '-'
        · subst hmc; rfl
        · by_cases hac : c = 'a'
          · subst hac
            exact finishAxisChk_eq key [] false AxisRange.Full pos
          · by_cases hbc : c = 'b'
            · subst hbc; rfl
            · by_cases hhc : c = 'h'
              · subst hhc; rfl
              · rw [if_neg (by simp [hpc]), if_neg (by simp [hmc]),
                  if_neg (by simp [hac]), if_neg (by simp [hbc]),
                  if_neg (by simp [hhc]),
                  decodeValue_cons_other key c [] pos hpc hmc hac hbc hhc]
    | cons c2 rest =>
      simp only [strGet_second]
      by_cases hpc : c = '+'
      · subst hpc
        by_cases hac2 : c2 = 'a'
        · subst hac2
          by_cases ht : rest.getLast? = some '~'
          · have hcond : strGetFrom ('+' :: 'a' :: rest)
                (('+' :: 'a' :: rest).length - 1) = some ['~'] := by
              rw [tilde_cond _ (by simp), getLast?_head_cons '+' _ (by decide),
                getLast?_head_cons 'a' _ (by decide)]
              exact ht
            have hr : rest ≠ [] := by
              intro h0; subst h0; simp at ht
            rw [if_pos ⟨rfl, rfl⟩, if_pos hcond]
            simp only [sliceChk_two_pred '+' 'a' rest hr]
            have hmain : decodeValue key ('+' :: 'a' :: rest) pos =
                finishAxis key rest.dropLast true AxisRange.UpperHalf pos := by
              show finishAxis key (stripTilde rest).1 (stripTilde rest).2
                AxisRange.UpperHalf pos = _
              rw [show stripTilde rest = (rest.dropLast, true) from by
                unfold stripTilde; rw [if_pos ht]]
            rw [hmain]
            exact finishAxisChk_eq key rest.dropLast true AxisRange.UpperHalf pos
          · have hcond : ¬(strGetFrom ('+' :: 'a' :: rest)
                (('+' :: 'a' :: rest).length - 1) = some ['~']) := by
              rw [tilde_cond _ (by simp), getLast?_head_cons '+' _ (by decide),
                getLast?_head_cons 'a' _ (by decide)]
              exact ht
            rw [if_pos ⟨rfl, rfl⟩, if_neg hcond]
            simp only [sliceFromChk_cons_cons_two]
            have hmain : decodeValue key ('+' :: 'a' :: rest) pos =
                finishAxis key rest false AxisRange.UpperHalf pos := by
              show finishAxis key (stripTilde rest).1 (stripTilde rest).2
                AxisRange.UpperHalf pos = _
              rw [show stripTilde rest = (rest, false) from by
                unfold stripTilde; rw [if_neg ht]]
            rw [hmain]
            exact finishAxisChk_eq key rest false AxisRange.UpperHalf pos
        · rw [if_neg (by simp [hac2]), if_neg (by simp), if_neg (by simp),
            if_neg (by simp), if_neg (by simp),
            decodeValue_plus_other key c2 rest pos hac2]
      · by_cases hmc : c = '-'
        · subst hmc
          by_cases hac2 : c2 = 'a'
          · subst hac2
            by_cases ht : rest.getLast? = some '~'
            · have hcond : strGetFrom ('-' :: 'a' :: rest)
                  (('-' :: 'a' :: rest).length - 1) = some ['~'] := by
                rw [tilde_cond _ (by simp), getLast?_head_cons '-' _ (by decide),
                  getLast?_head_cons 'a' _ (by decide)]
                exact ht
              have hr : rest ≠ [] := by
                intro h0; subst h0; simp at ht
              rw [if_neg (by simp), if_pos ⟨rfl, rfl⟩, if_pos hcond]
              simp only [sliceChk_two_pred '-' 'a' rest hr]
              have hmain : decodeValue key ('-' :: 'a' :: rest) pos =
                  finishAxis key rest.dropLast true AxisRange.LowerHalf pos := by
                show finishAxis key (stripTilde rest).1 (stripTilde rest).2
                  AxisRange.LowerHalf pos = _
                rw [show stripTilde rest = (rest.dropLast, true) from by
                  unfold stripTilde; rw [if_pos ht]]
              rw [hmain]
              exact finishAxisChk_eq key rest.dropLast true AxisRange.LowerHalf pos
            · have hcond : ¬(strGetFrom ('-' :: 'a' :: rest)
                  (('-' :: 'a' :: rest).length - 1) = some ['~']) := by
                rw [tilde_cond _ (by simp), getLast?_head_cons '-' _ (by decide),
                  getLast?_head_cons 'a' _ (by decide)]
                exact ht
              rw [if_neg (by simp), if_pos ⟨rfl, rfl⟩, if_neg hcond]
              simp only [sliceFromChk_cons_cons_two]
              have hmain : decodeValue key ('-' :: 'a' :: rest) pos =
                  finishAxis key rest false AxisRange.LowerHalf pos := by
                show finishAxis key (stripTilde rest).1 (stripTilde rest).2
                  AxisRange.LowerHalf pos = _
                rw [show stripTilde rest = (rest, false) from by
                  unfold stripTilde; rw [if_neg ht]]
              rw [hmain]
              exact finishAxisChk_eq key rest false AxisRange.LowerHalf pos
          · rw [if_neg (by simp), if_neg (by simp [hac2]), if_neg (by simp),
              if_neg (by simp), if_neg (by simp),
              decodeValue_minus_other key c2 rest pos hac2]
        · by_cases hac : c = 'a'
          · subst hac
            by_cases ht : (c2 :: rest).getLast? = some '~'
            · have hcond : strGetFrom ('a' :: c2 :: rest)
                  (('a' :: c2 :: rest).length - 1) = some ['~'] := by
                rw [tilde_cond _ (by simp), getLast?_head_cons 'a' _ (by decide)]
                exact ht
              rw [if_neg (by simp), if_neg (by simp), if_pos rfl, if_pos hcond]
              simp only [sliceChk_one_pred 'a' (c2 :: rest) (by simp)]
              have hmain : decodeValue key ('a' :: c2 :: rest) pos =
                  finishAxis key (c2 :: rest).dropLast true AxisRange.Full pos := by
                show finishAxis key (stripTilde (c2 :: rest)).1
                  (stripTilde (c2 :: rest)).2 AxisRange.Full pos = _
                rw [show stripTilde (c2 :: rest) = ((c2 :: rest).dropLast, true) from by
                  unfold stripTilde; rw [if_pos ht]]
              rw [hmain]
              exact finishAxisChk_eq key (c2 :: rest).dropLast true AxisRange.Full pos
            · have hcond : ¬(strGetFrom ('a' :: c2 :: rest)
                  (('a' :: c2 :: rest).length - 1) = some ['~']) := by
                rw [tilde_cond _ (by simp), getLast?_head_cons 'a' _ (by decide)]
                exact ht
              rw [if_neg (by simp), if_neg (by simp), if_pos rfl, if_neg hcond]
              simp only [sliceFromChk_cons_one]
              have hmain : decodeValue key ('a' :: c2 :: rest) pos =
                  finishAxis key (c2 :: rest) false AxisRange.Full pos := by
                show finishAxis key (stripTilde (c2 :: rest)).1
                  (stripTilde (c2 :: rest)).2 AxisRange.Full pos = _
                rw [show stripTilde (c2 :: rest) = ((c2 :: rest), false) from by
                  unfold stripTilde; rw [if_neg ht]]
              rw [hmain]
              exact finishAxisChk_eq key (c2 :: rest) false AxisRange.Full pos
          · by_cases hbc : c = 'b'
            · subst hbc
              rw [if_neg (by simp), if_neg (by simp), if_neg (by simp), if_pos rfl]
              simp only [sliceFromChk_cons_one]
              have hmain : decodeValue key ('b' :: c2 :: rest) pos =
                  (match parseU16 (c2 :: rest) with
                   | none => PResult.error (Error.new ErrorKind.InvalidValue pos)
                   | some source =>
                     match buttonLookup key with
                     | none => PResult.error (Error.new ErrorKind.UnknownButton pos)
                     | some b => PResult.ok (Token.buttonMapping source b)) := rfl
              rw [hmain]
              cases hu : parseU16 (c2 :: rest) with
              | none => rfl
              | some source => exact buttonResolveChk_eq key source pos
            · by_cases hhc : c = 'h'
              · subst hhc
                rw [if_neg (by simp), if_neg (by simp), if_neg (by simp),
                  if_neg (by simp), if_pos rfl]
                exact decodeHatChk_eq key (c2 :: rest) pos
              · rw [if_neg (by simp [hpc]), if_neg (by simp [hmc]),
                  if_neg (by simp [hac]), if_neg (by simp [hbc]),
                  if_neg (by simp [hhc]),
                  decodeValue_cons_other key c (c2 :: rest) pos hpc hmc hac hbc hhc]

lemma decodePairChk_eq (pair : List Char) (pos : Nat) :
    decodePairChk pair pos = some (decodePair pair pos) := by
  simp only [decodePairChk, decodePair]
  rcases hs : splitOn ':' pair with _ | ⟨k, _ | ⟨v, _ | ⟨w, tl⟩⟩⟩
  · rfl
  · rfl
  · show (if k = platformKey then some (PResult.ok (Token.platform v))
      else decodeValueChk k v pos) = some (if k = platformKey
      then PResult.ok (Token.platform v) else decodeValue k v pos)
    by_cases hk : k = platformKey
    · rw [if_pos hk, if_pos hk]
    · rw [if_neg hk, if_neg hk]
      exact decodeValueChk_eq k v pos
  · rfl

lemma parse_uuidChk_eq (guidOk : List Char → Bool) (p : Parser)
    (hp : p.pos ≤ p.data.length) :
    parse_uuidChk guidOk p = some (parse_uuid guidOk p) := by
  obtain ⟨hge, hle⟩ := next_comma_or_end_bounds p hp
  simp only [parse_uuidChk, parse_uuid,
    sliceChk_of_le p.data p.pos (next_comma_or_end p) hge hle]
  cases hg : guidOk (extract p.data p.pos (next_comma_or_end p)) with
  | false => rfl
  | true =>
    by_cases hnc : next_comma_or_end p = p.data.length
    · rw [if_pos hnc, if_pos hnc]; rfl
    · rw [if_neg hnc, if_neg hnc]; rfl

lemma parse_nameChk_eq (p : Parser) (hp : p.pos ≤ p.data.length) :
    parse_nameChk p = some (parse_name p) := by
  obtain ⟨hge, hle⟩ := next_comma_or_end_bounds p hp
  simp only [parse_nameChk, parse_name,
    sliceChk_of_le p.data p.pos (next_comma_or_end p) hge hle]

lemma parse_key_valChk_eq (p : Parser) (hp : p.pos ≤ p.data.length) :
    parse_key_valChk p = some (parse_key_val p) := by
  obtain ⟨hge, hle⟩ := next_comma_or_end_bounds p hp
  simp only [parse_key_valChk, parse_key_val,
    sliceChk_of_le p.data p.pos (next_comma_or_end p) hge hle,
    decodePairChk_eq]

/-- C9: the tokenizer never panics.  In the checked model every Rust
slice-indexing operation is bounds-checked and `none` marks a panic; for
every input line, cursor, stage and GUID parser, the checked tokenizer
returns `some` result and agrees with the total model: every slice the
tokenizer and decoder take is in bounds (guarded by the prior `find` / `get`
probes), and every numeric conversion is fallible rather than asserting. -/
theorem c9_next_token_never_panics (guidOk : List Char → Bool) (p : Parser) :
    next_tokenChk guidOk p = some (next_token guidOk p) := by
  by_cases hle : p.data.length ≤ p.pos
  · unfold next_tokenChk next_token
    rw [if_pos hle, if_pos hle]
  · have hp : p.pos ≤ p.data.length := by omega
    obtain ⟨data, pos, st⟩ := p
    unfold next_tokenChk next_token
    rw [if_neg hle, if_neg hle]
    cases st with
    | uuid => rw [parse_uuidChk_eq guidOk ⟨data, pos, State.uuid⟩ hp]; rfl
    | name => rw [parse_nameChk_eq ⟨data, pos, State.name⟩ hp]; rfl
    | keyVal => rw [parse_key_valChk_eq ⟨data, pos, State.keyVal⟩ hp]; rfl
    | invalid => rfl

end Gilrs
